import Mathlib

/-!
Verification of the client-side data-fetch / aggregation / caching pipeline of
the `eda` dashboard (TypeScript sources, shallowly embedded in Lean).

Conventions of the embedding:
* JavaScript numbers are modelled as rationals where only finite values occur;
  host functions with unmodellable behaviour (the proj4 projection, the
  generic `Date.parse`, locale collation) are taken as explicit parameters.
* Ordered string-keyed maps (`Map`, plain objects, `localStorage`) are
  modelled as insertion-ordered association lists.
* Asynchronous code is modelled as pure state-passing; the cancellation flag
  of the map-section effect becomes an explicit boolean observed at the
  awaited boundary.
-/

namespace Eda

/-! ### Association-list helpers (model of `Map` / plain objects / storage) -/

/-- Lookup in an insertion-ordered association list (model of `Map.get` /
`localStorage.getItem` / object indexing). -/
def getA {A : Type} : List (String × A) → String → Option A
  | [], _ => none
  | (k', v) :: rest, k => if k' = k then some v else getA rest k

/-- Insert-or-replace in an association list (model of `Map.set` /
`localStorage.setItem` / object assignment).  A present key keeps its
position, a new key is appended. -/
def setA {A : Type} : List (String × A) → String → A → List (String × A)
  | [], k, v => [(k, v)]
  | (k', v') :: rest, k, v =>
      if k' = k then (k, v) :: rest else (k', v') :: setA rest k v

/-- Boolean string startsWith on the underlying character lists (model of
JavaScript `String.prototype.startsWith`). -/
def strStarts (p s : String) : Bool := p.data.isPrefixOf s.data

theorem getA_setA_self {A : Type} (l : List (String × A)) (k : String) (v : A) :
    getA (setA l k v) k = some v := by
  induction l with
  | nil => simp [setA, getA]
  | cons hd tl ih =>
      obtain ⟨k', v'⟩ := hd
      by_cases h : k' = k <;> simp [setA, getA, h, ih]

theorem getA_setA_other {A : Type} (l : List (String × A)) (k k' : String) (v : A)
    (h : k ≠ k') : getA (setA l k v) k' = getA l k' := by
  induction l with
  | nil => simp [setA, getA, h]
  | cons hd tl ih =>
      obtain ⟨k₀, v₀⟩ := hd
      by_cases h₀ : k₀ = k
      · subst h₀
        simp [setA, getA, h]
      · simp [setA, getA, h₀, ih]

/-- Lookup after filtering by a predicate on keys alone: the entry survives
exactly when the predicate holds on the looked-up key. -/
theorem getA_filter_key {A : Type} (l : List (String × A)) (g : String → Bool) (k : String) :
    getA (l.filter (fun e => g e.1)) k = if g k then getA l k else none := by
  induction l with
  | nil => simp [getA]
  | cons hd tl ih =>
      obtain ⟨k₀, v₀⟩ := hd
      by_cases hk : k₀ = k
      · subst hk
        by_cases hg : g k₀ <;> simp [List.filter, getA, hg, ih]
      · by_cases hg : g k₀ <;> simp [List.filter, getA, hg, hk, ih]

theorem strStarts_append_left (a p s : String) :
    strStarts (a ++ p) (a ++ s) = strStarts p s := by
  show ((a ++ p).data.isPrefixOf (a ++ s).data) = (p.data.isPrefixOf s.data)
  rw [String.data_append, String.data_append]
  induction a.data with
  | nil => rfl
  | cons c cs ih => simpa [List.isPrefixOf] using ih

theorem strStarts_trans_of_append (p k a : String) (h : strStarts p k = true) :
    strStarts (a ++ p) (a ++ k) = true := by
  rw [strStarts_append_left]; exact h

/-! ### Cache Store (model of `src/lib/cache.ts`, `part_000`)

The persistent tier (`localStorage`) stores, under `CACHE_PREFIX + key`, a raw
string that deserializes to `{t, d}` or fails.  We model a raw entry as
`Option (Int × V)`: `none` stands for a string whose `JSON.parse` throws or
whose `t` field is not a number (both are treated as a miss by `cacheRead`).
A write to the persistent tier can fail (quota); the `storeOk` flag models
whether the `localStorage.setItem` call succeeded. -/

def cachePref : String := "eda_cache:"

structure CacheState (V : Type) where
  mem : List (String × Int × V)
  store : List (String × Option (Int × V))

/-- Model of `cacheRead`: memory tier first (age-checked), then the persistent
tier (existence, deserialization, numeric timestamp and age all checked), with
promotion of a valid persistent entry into the memory tier.  Returns the
payload (or `none`) together with the possibly-updated state. -/
def cacheRead {V : Type} (key : String) (maxAgeMs now : Int) (st : CacheState V) :
    Option V × CacheState V :=
  let readStore : Option V × CacheState V :=
    match getA st.store (cachePref ++ key) with
    | none => (none, st)
    | some none => (none, st)
    | some (some (t, d)) =>
        if now - t > maxAgeMs then (none, st)
        else (some d, { st with mem := setA st.mem key (t, d) })
  match getA st.mem key with
  | some (t, d) => if now - t ≤ maxAgeMs then (some d, st) else readStore
  | none => readStore

/-- Model of `cacheWrite`: unconditionally writes the timestamped payload to
the memory tier; the persistent-tier write succeeds only when `storeOk`
(a failed `localStorage.setItem` is swallowed by the `try`/`catch`). -/
def cacheWrite {V : Type} (key : String) (d : V) (now : Int) (storeOk : Bool)
    (st : CacheState V) : CacheState V :=
  { mem := setA st.mem key (now, d),
    store := if storeOk then setA st.store (cachePref ++ key) (some (now, d)) else st.store }

/-- Model of `cacheClear`: with no argument, empties the memory tier and
removes every persistent key starting with `CACHE_PREFIX`; with an argument
`p`, removes memory keys starting with `p` and persistent keys starting with
`CACHE_PREFIX + p`. -/
def cacheClear {V : Type} (pfx : Option String) (st : CacheState V) : CacheState V :=
  match pfx with
  | none =>
      { mem := [],
        store := st.store.filter (fun e => ! strStarts cachePref e.1) }
  | some p =>
      { mem := st.mem.filter (fun e => ! strStarts p e.1),
        store := st.store.filter (fun e => ! strStarts (cachePref ++ p) e.1) }

theorem strStarts_self_append (a s : String) : strStarts a (a ++ s) = true := by
  show a.data.isPrefixOf (a ++ s).data = true
  rw [String.data_append]
  induction a.data with
  | nil => simp [List.isPrefixOf]
  | cons c cs ih => simp [List.isPrefixOf, ih]

/-- Specialization of `getA_filter_key` to the startsWith-based filters used
by `cacheClear`. -/
theorem getA_filter_not_starts {A : Type} (l : List (String × A)) (p k : String) :
    getA (l.filter (fun e => ! strStarts p e.1)) k
      = if strStarts p k then none else getA l k := by
  have h := getA_filter_key l (fun key => ! strStarts p key) k
  cases hs : strStarts p k <;> simp_all

/-- Claim C5 (amended): after `cacheWrite(k, v)` at time `t`, `cacheRead(k, m)`
at time `now` returns the payload `v` whenever `now - t ≤ m` and `none`
whenever `now - t > m` (assuming any pre-existing persistent entry for `k` is
no newer than the write, which every API-generated state satisfies); in
particular a read with `maxAge = 0` at the very instant of the write returns
the payload, not `none`, because the memory-tier check is `now - t ≤ maxAge`. -/
theorem claim5_cache_roundtrip {V : Type} (st : CacheState V) (k : String) (v : V)
    (t now m : Int) (storeOk : Bool)
    (hstale : ∀ t' v', getA st.store (cachePref ++ k) = some (some (t', v')) → t' ≤ t) :
    (now - t ≤ m → (cacheRead k m now (cacheWrite k v t storeOk st)).1 = some v)
    ∧ (now - t > m → (cacheRead k m now (cacheWrite k v t storeOk st)).1 = none)
    ∧ (cacheRead k 0 t (cacheWrite k v t storeOk st)).1 = some v := by
  have hmem : getA (setA st.mem k (t, v)) k = some (t, v) := getA_setA_self _ _ _
  refine ⟨?_, ?_, ?_⟩
  · intro h
    simp [cacheRead, cacheWrite, hmem, h]
  · intro h
    have h' : ¬ (now - t ≤ m) := not_le.mpr h
    cases storeOk with
    | true => simp [cacheRead, cacheWrite, hmem, h', getA_setA_self, h]
    | false =>
        cases hst : getA st.store (cachePref ++ k) with
        | none => simp [cacheRead, cacheWrite, hmem, h', hst]
        | some raw =>
            cases raw with
            | none => simp [cacheRead, cacheWrite, hmem, h', hst]
            | some tv =>
                obtain ⟨t', v'⟩ := tv
                have ht' : t' ≤ t := hstale t' v' hst
                have hgt : now - t' > m := by linarith
                simp [cacheRead, cacheWrite, hmem, h', hst, hgt]
  · simp [cacheRead, cacheWrite, hmem]

/-- Claim C5 witness: on a concrete state, a fresh write read back within the
age budget yields the payload, and outside the budget yields `none`. -/
theorem claim5_witness :
    (((5 : Int) - 0 ≤ 10) ∧
      (cacheRead "k" 10 5 (cacheWrite "k" (7 : Nat) 0 true ⟨[], []⟩)).1 = some 7)
    ∧ (((50 : Int) - 0 > 10) ∧
      (cacheRead "k" 10 50 (cacheWrite "k" (7 : Nat) 0 true ⟨[], []⟩)).1 = none) := by
  have h := claim5_cache_roundtrip (V := Nat) ⟨[], []⟩ "k" 7 0 5 10 true
    (by intro t' v' h; simp [getA] at h)
  have h' := claim5_cache_roundtrip (V := Nat) ⟨[], []⟩ "k" 7 0 50 10 true
    (by intro t' v' h; simp [getA] at h)
  exact ⟨⟨by norm_num, h.1 (by norm_num)⟩, ⟨by norm_num, h'.2.1 (by norm_num)⟩⟩

/-- Claim C5 counterexample: `cacheRead(k, maxAge := 0)` at the same instant
as the write returns the written payload, not `none` as the claim states
(the memory tier passes the check `now - t ≤ maxAge` since `0 ≤ 0`). -/
theorem claim5_cex :
    (cacheRead "k" 0 5 (cacheWrite "k" (7 : Nat) 5 true ⟨[], []⟩)).1 = some 7
    ∧ (cacheRead "k" 0 5 (cacheWrite "k" (7 : Nat) 5 true ⟨[], []⟩)).1 ≠ none := by
  constructor <;> decide

/-- Claim C6: after `cacheClear` with a key prefix, every key starting with
that prefix is unreadable from both tiers, every other key reads exactly as
before, and `cacheClear` with no prefix makes every key unreadable. -/
theorem claim6_clear_scoped {V : Type} (st : CacheState V) (p k : String) (now m : Int) :
    (strStarts p k = true → (cacheRead k m now (cacheClear (some p) st)).1 = none)
    ∧ (strStarts p k = false →
        (cacheRead k m now (cacheClear (some p) st)).1 = (cacheRead k m now st).1)
    ∧ (cacheRead k m now (cacheClear none st)).1 = none := by
  refine ⟨?_, ?_, ?_⟩
  · intro h
    have hs : strStarts (cachePref ++ p) (cachePref ++ k) = true :=
      strStarts_trans_of_append p k cachePref h
    simp [cacheRead, cacheClear, getA_filter_not_starts, h, hs]
  · intro h
    have hs : strStarts (cachePref ++ p) (cachePref ++ k) = false := by
      rw [strStarts_append_left]; exact h
    simp only [cacheRead, cacheClear, getA_filter_not_starts, h, hs, if_false, Bool.false_eq_true, ite_false]
    cases hm : getA st.mem k with
    | none =>
        cases hst : getA st.store (cachePref ++ k) with
        | none => simp
        | some raw =>
            cases raw with
            | none => simp
            | some tv => obtain ⟨t, d⟩ := tv; by_cases hage : now - t > m <;> simp [hage]
    | some tv =>
        obtain ⟨t, d⟩ := tv
        by_cases hage : now - t ≤ m
        · simp [hage]
        · cases hst : getA st.store (cachePref ++ k) with
          | none => simp [hage]
          | some raw =>
              cases raw with
              | none => simp [hage]
              | some tv' =>
                  obtain ⟨t', d'⟩ := tv'
                  by_cases hage' : now - t' > m <;> simp [hage, hage']
  · have hs : strStarts cachePref (cachePref ++ k) = true := strStarts_self_append _ _
    simp [cacheRead, cacheClear, getA_filter_not_starts, getA, hs]

/-- Claim C6 witness: writing `ns:a`, `ns:b`, `other:c` and clearing the
prefix `ns:` leaves only `other:c` readable, with its prior payload. -/
theorem claim6_witness :
    (strStarts "ns:" "ns:a" = true ∧
      (cacheRead "ns:a" 10 0 (cacheClear (some "ns:")
        (cacheWrite "other:c" 3 0 true (cacheWrite "ns:b" 2 0 true
          (cacheWrite "ns:a" (1 : Nat) 0 true ⟨[], []⟩))))).1 = none)
    ∧ (strStarts "ns:" "other:c" = false ∧
      (cacheRead "other:c" 10 0 (cacheClear (some "ns:")
        (cacheWrite "other:c" 3 0 true (cacheWrite "ns:b" 2 0 true
          (cacheWrite "ns:a" (1 : Nat) 0 true ⟨[], []⟩))))).1 = some 3) := by
  have h := claim6_clear_scoped
    (cacheWrite "other:c" 3 0 true (cacheWrite "ns:b" 2 0 true
      (cacheWrite "ns:a" (1 : Nat) 0 true ⟨[], []⟩))) "ns:" "ns:a" 0 10
  have h' := claim6_clear_scoped
    (cacheWrite "other:c" 3 0 true (cacheWrite "ns:b" 2 0 true
      (cacheWrite "ns:a" (1 : Nat) 0 true ⟨[], []⟩))) "ns:" "other:c" 0 10
  refine ⟨⟨by decide, h.1 (by decide)⟩, ⟨by decide, ?_⟩⟩
  rw [h'.2.1 (by decide)]
  decide

/-! ### Paginated Fetcher (model of `fetchAll` in `part_001`)

`fetchAll` loops: it requests the inclusive range
`[page*pageSize, (page+1)*pageSize - 1]`, throws on error, stops on an empty
page, accumulates and stops on a short page, otherwise advances to the next
page.  A page request is modelled as `src : Nat → Except ε (List α)`.  The
`while (true)` loop gets explicit fuel: the value `none` means the fuel ran
out before the loop exited (theorems always supply sufficient fuel).
Alongside the result we record the trace of issued requests — lower bound,
upper bound, and the number of rows returned (`none` when the request
errored). -/

def fetchAllAux {ε α : Type} (src : Nat → Except ε (List α)) (ps : Nat) :
    Nat → Nat → Option (Except ε (List α) × List (Nat × Nat × Option Nat))
  | 0, _ => none
  | fuel + 1, page =>
      let lo := page * ps
      let hi := (page + 1) * ps - 1
      match src page with
      | .error e => some (.error e, [(lo, hi, none)])
      | .ok arr =>
          if arr.length = 0 then some (.ok [], [(lo, hi, some 0)])
          else if arr.length < ps then some (.ok arr, [(lo, hi, some arr.length)])
          else
            match fetchAllAux src ps fuel (page + 1) with
            | none => none
            | some (.error e, tr) => some (.error e, (lo, hi, some arr.length) :: tr)
            | some (.ok rest, tr) => some (.ok (arr ++ rest), (lo, hi, some arr.length) :: tr)

/-- Model of `fetchAll build pageSize`: run the pagination loop from page 0. -/
def fetchAll {ε α : Type} (src : Nat → Except ε (List α)) (ps fuel : Nat) :
    Option (Except ε (List α) × List (Nat × Nat × Option Nat)) :=
  fetchAllAux src ps fuel 0

/-- A stable backend holding exactly the rows of a list, serving inclusive
ranges of it (the `range(lo, hi)` query of the remote tabular source). -/
def listSrc {ε α : Type} (rows : List α) (ps page : Nat) : Except ε (List α) :=
  .ok ((rows.drop (page * ps)).take ps)

/-- The request trace `fetchAll` produces against a stable source of `n`
rows with page size `ps`, starting at page `p` and issuing `m` requests. -/
def listTrace (n ps : Nat) : Nat → Nat → List (Nat × Nat × Option Nat)
  | _, 0 => []
  | p, m + 1 =>
      (p * ps, (p + 1) * ps - 1, some (min ps (n - p * ps)))
        :: listTrace n ps (p + 1) m

theorem length_listTrace (n ps : Nat) :
    ∀ m p, (listTrace n ps p m).length = m := by
  intro m
  induction m with
  | zero => intro p; rfl
  | succ m ih => intro p; simp [listTrace, ih]

theorem getLast_listTrace (n ps : Nat) :
    ∀ m p, (listTrace n ps p (m + 1)).getLast? =
      some ((p + m) * ps, (p + m + 1) * ps - 1, some (min ps (n - (p + m) * ps))) := by
  intro m
  induction m with
  | zero => intro p; rfl
  | succ m ih =>
      intro p
      rw [listTrace, listTrace, List.getLast?_cons_cons]
      have h := ih (p + 1)
      rw [listTrace] at h
      rw [h]
      have e : p + 1 + m = p + (m + 1) := by omega
      rw [e]

/-- Against a stable list-backed source, the pagination loop returns the
whole suffix of the row list from its start page, in source order, and its
request trace is the consecutive run of `(rows.length - start)/pageSize + 1`
inclusive ranges. -/
theorem fetchAllAux_listSrc {ε α : Type} (rows : List α) (ps : Nat) (hps : 0 < ps) :
    ∀ fuel p, (rows.length - p * ps) / ps + 1 ≤ fuel →
      fetchAllAux (ε := ε) (listSrc rows ps) ps fuel p
        = some (.ok (rows.drop (p * ps)),
            listTrace rows.length ps p ((rows.length - p * ps) / ps + 1)) := by
  intro fuel
  induction fuel with
  | zero => intro p h; exact absurd h (Nat.not_succ_le_zero _)
  | succ fuel ih =>
      intro p _
      have hlen : ((rows.drop (p * ps)).take ps).length
          = min ps (rows.length - p * ps) := by
        simp [List.length_take, List.length_drop]
      by_cases h0 : rows.length - p * ps = 0
      · have hdrop : rows.drop (p * ps) = [] := List.drop_eq_nil_of_le (by omega)
        have hdiv : (rows.length - p * ps) / ps = 0 := by rw [h0]; simp
        simp [fetchAllAux, listSrc, listTrace, hdrop, hdiv, h0]
      · by_cases hshort : rows.length - p * ps < ps
        · have htake : (rows.drop (p * ps)).take ps = rows.drop (p * ps) := by
            apply List.take_of_length_le
            rw [List.length_drop]; omega
          have hlen' : (rows.drop (p * ps)).length = rows.length - p * ps :=
            List.length_drop _ _
          have hdiv : (rows.length - p * ps) / ps = 0 := Nat.div_eq_of_lt hshort
          have hmin : min ps (rows.length - p * ps) = rows.length - p * ps := by omega
          simp only [fetchAllAux, listSrc, htake, hlen', listTrace, hdiv, hmin]
          simp [h0, hshort]
        · -- full page: recurse
          have hfull : ps ≤ rows.length - p * ps := by omega
          have hlenfull : ((rows.drop (p * ps)).take ps).length = ps := by
            rw [hlen]; omega
          have hrec : (rows.length - (p + 1) * ps) / ps + 1 ≤ fuel := by
            have hsub : rows.length - (p + 1) * ps = (rows.length - p * ps) - ps := by
              rw [Nat.succ_mul]; omega
            have hdivstep : (rows.length - p * ps) / ps
                = ((rows.length - p * ps) - ps) / ps + 1 :=
              Nat.div_eq_sub_div hps hfull
            rw [hsub]
            omega
          have hih := ih (p + 1) hrec
          have hglue : (rows.drop (p * ps)).take ps ++ rows.drop ((p + 1) * ps)
              = rows.drop (p * ps) := by
            have : rows.drop ((p + 1) * ps) = (rows.drop (p * ps)).drop ps := by
              rw [List.drop_drop]
              congr 1
              ring
            rw [this, List.take_append_drop]
          have hdivstep : (rows.length - p * ps) / ps
              = ((rows.length - p * ps) - ps) / ps + 1 :=
            Nat.div_eq_sub_div hps hfull
          have hsub : rows.length - (p + 1) * ps = (rows.length - p * ps) - ps := by
            rw [Nat.succ_mul]; omega
          have htr : listTrace rows.length ps p ((rows.length - p * ps) / ps + 1)
              = (p * ps, (p + 1) * ps - 1, some ps)
                :: listTrace rows.length ps (p + 1) ((rows.length - (p + 1) * ps) / ps + 1) := by
            rw [hdivstep, listTrace]
            have hmin : min ps (rows.length - p * ps) = ps := by omega
            rw [hmin, hsub]
          have hne : ¬ (ps = 0) := by omega
          have hnlt : ¬ (ps < ps) := by omega
          simp only [fetchAllAux, listSrc]
          rw [hlenfull, if_neg hne, if_neg hnlt]
          simp only [hih]
          rw [hglue, htr]

/-- Claim C1: with pageSize 1000, `fetchAll` requests strictly consecutive
inclusive ranges `[page*1000, (page+1)*1000 - 1]` starting at page 0;
against a source of exactly 2500 rows it issues exactly the 3 requests
`(0-999, 1000 returned)`, `(1000-1999, 1000 returned)`, `(2000-2999, 500
returned)` and returns all 2500 rows in source order; against a source of
exactly `1000*k` rows it issues exactly `k + 1` requests, the last
returning zero rows, and returns all rows. -/
theorem claim1_fetchAll_pagination {ε α : Type} :
    (∀ rows : List α, rows.length = 2500 →
      fetchAll (ε := ε) (listSrc rows 1000) 1000 3
        = some (.ok rows,
            [(0, 999, some 1000), (1000, 1999, some 1000), (2000, 2999, some 500)]))
    ∧ (∀ (rows : List α) (k : Nat), rows.length = 1000 * k →
      fetchAll (ε := ε) (listSrc rows 1000) 1000 (k + 1)
        = some (.ok rows, listTrace rows.length 1000 0 (k + 1))
      ∧ (listTrace rows.length 1000 0 (k + 1)).length = k + 1
      ∧ (listTrace rows.length 1000 0 (k + 1)).getLast?
          = some (k * 1000, (k + 1) * 1000 - 1, some 0)) := by
  constructor
  · intro rows h
    have hmain := fetchAllAux_listSrc (ε := ε) rows 1000 (by norm_num) 3 0
      (by rw [h])
    rw [fetchAll, hmain, h]
    rfl
  · intro rows k h
    have hmain := fetchAllAux_listSrc (ε := ε) rows 1000 (by norm_num) (k + 1) 0
      (by rw [h]; omega)
    have e : (rows.length - 0 * 1000) / 1000 + 1 = k + 1 := by rw [h]; omega
    rw [e] at hmain
    refine ⟨by rw [fetchAll, hmain]; rfl, length_listTrace _ _ _ _, ?_⟩
    have h3 := getLast_listTrace rows.length 1000 k 0
    have e2 : 0 + k = k := by omega
    rw [e2] at h3
    have e3 : min 1000 (rows.length - k * 1000) = 0 := by rw [h]; omega
    rw [e3] at h3
    exact h3

/-- Claim C1 witness: concrete sources with 2500 rows and with 1000*2 rows. -/
theorem claim1_witness :
    ((List.range 2500).length = 2500 ∧
      fetchAll (ε := Unit) (listSrc (List.range 2500) 1000) 1000 3
        = some (.ok (List.range 2500),
            [(0, 999, some 1000), (1000, 1999, some 1000), (2000, 2999, some 500)]))
    ∧ ((List.range 2000).length = 1000 * 2 ∧
      (listTrace 2000 1000 0 3).length = 3 ∧
      (listTrace 2000 1000 0 3).getLast? = some (2 * 1000, 3 * 1000 - 1, some 0)) := by
  have h1 := (claim1_fetchAll_pagination (ε := Unit) (α := Nat)).1 (List.range 2500)
    (by simp)
  have h2 := (claim1_fetchAll_pagination (ε := Unit) (α := Nat)).2 (List.range 2000) 2
    (by simp)
  rw [List.length_range] at h2
  exact ⟨⟨by simp, h1⟩, ⟨by simp, h2.2.1, h2.2.2⟩⟩

/-- The trace of `m` successful full-page requests starting at page `p`. -/
def okTrace (ps : Nat) : Nat → Nat → List (Nat × Nat × Option Nat)
  | _, 0 => []
  | p, m + 1 => (p * ps, (p + 1) * ps - 1, some ps) :: okTrace ps (p + 1) m

theorem length_okTrace (ps : Nat) : ∀ m p, (okTrace ps p m).length = m := by
  intro m
  induction m with
  | zero => intro p; rfl
  | succ m ih => intro p; simp [okTrace, ih]

/-- If the first `m` pages from `p₀` are full and page `p₀ + m` errors, the
pagination loop stops at the error, returns it (dropping all accumulated
rows) and never issues a request past page `p₀ + m`. -/
theorem fetchAllAux_error {ε α : Type} (src : Nat → Except ε (List α)) (ps : Nat)
    (hps : 0 < ps) :
    ∀ (m p₀ fuel : Nat) (e : ε),
      (∀ q, p₀ ≤ q → q < p₀ + m → ∃ arr, src q = .ok arr ∧ arr.length = ps) →
      src (p₀ + m) = .error e → m < fuel →
      fetchAllAux src ps fuel p₀
        = some (.error e, okTrace ps p₀ m ++ [((p₀ + m) * ps, (p₀ + m + 1) * ps - 1, none)]) := by
  intro m
  induction m with
  | zero =>
      intro p₀ fuel e _ herr hfuel
      match fuel, hfuel with
      | f + 1, _ =>
          simp only [Nat.add_zero] at herr ⊢
          simp only [fetchAllAux, herr]
          rfl
  | succ m ih =>
      intro p₀ fuel e hok herr hfuel
      match fuel, hfuel with
      | f + 1, hfuel =>
          obtain ⟨arr, harr, hlen⟩ := hok p₀ (le_refl _) (by omega)
          have hok' : ∀ q, p₀ + 1 ≤ q → q < p₀ + 1 + m →
              ∃ a, src q = .ok a ∧ a.length = ps := by
            intro q h1 h2
            exact hok q (by omega) (by omega)
          have eadd : p₀ + 1 + m = p₀ + (m + 1) := by omega
          have herr' : src (p₀ + 1 + m) = .error e := by rw [eadd]; exact herr
          have hrec := ih (p₀ + 1) f e hok' herr' (by omega)
          have hne : ¬ (arr.length = 0) := by omega
          have hnlt : ¬ (arr.length < ps) := by omega
          simp only [fetchAllAux, harr, if_neg hne, if_neg hnlt, hrec]
          rw [okTrace, hlen, eadd]
          rfl

/-- If every page request succeeds, the loop never produces an error: the
transport failure is the only failure the fetcher can surface. -/
theorem fetchAllAux_ok_of_src_ok {ε α : Type} (src : Nat → Except ε (List α)) (ps : Nat)
    (hok : ∀ q, ∃ arr, src q = .ok arr) :
    ∀ (fuel page : Nat) (res : Except ε (List α)) (tr : List (Nat × Nat × Option Nat)),
      fetchAllAux src ps fuel page = some (res, tr) → ∃ l, res = .ok l := by
  intro fuel
  induction fuel with
  | zero => intro page res tr h; simp [fetchAllAux] at h
  | succ fuel ih =>
      intro page res tr h
      obtain ⟨arr, harr⟩ := hok page
      simp only [fetchAllAux, harr] at h
      by_cases h0 : arr.length = 0
      · simp [h0] at h
        exact ⟨[], h.1.symm⟩
      · by_cases hshort : arr.length < ps
        · simp [h0, hshort] at h
          exact ⟨arr, h.1.symm⟩
        · simp only [h0, hshort, if_false, ite_false] at h
          rcases hrec : fetchAllAux src ps fuel (page + 1) with _ | ⟨res', tr'⟩
          · rw [hrec] at h; simp at h
          · rw [hrec] at h
            obtain ⟨l', hl'⟩ := ih (page + 1) res' tr' hrec
            subst hl'
            simp at h
            exact ⟨arr ++ l', h.1.symm⟩

/-- Claim C2: if the first `p` page requests return full pages and the
`p`-th request errors, `fetchAll` rejects with that same error, returns no
partial row array, and its request trace stops at page `p` (exactly `p + 1`
requests, each page issued once, no retry); moreover, when every page
request succeeds the fetcher cannot surface a failure at all — the
transport error is the only failure that crosses to the caller. -/
theorem claim2_fetchAll_error_propagation {ε α : Type}
    (src : Nat → Except ε (List α)) (p : Nat) (e : ε)
    (hok : ∀ q, q < p → ∃ arr, src q = .ok arr ∧ arr.length = 1000)
    (herr : src p = .error e) :
    (∀ fuel, p < fuel →
      fetchAll src 1000 fuel
        = some (.error e, okTrace 1000 0 p ++ [(p * 1000, (p + 1) * 1000 - 1, none)]))
    ∧ (okTrace 1000 0 p ++ [(p * 1000, (p + 1) * 1000 - 1, none)]).length = p + 1
    ∧ (∀ (src' : Nat → Except ε (List α)), (∀ q, ∃ arr, src' q = .ok arr) →
        ∀ fuel page res tr, fetchAllAux src' 1000 fuel page = some (res, tr) →
          ∃ l, res = .ok l) := by
  refine ⟨?_, ?_, ?_⟩
  · intro fuel hfuel
    have h := fetchAllAux_error src 1000 (by norm_num) p 0 fuel e
      (by intro q h1 h2; exact hok q (by omega)) (by simpa using herr) hfuel
    simpa [fetchAll] using h
  · rw [List.length_append, length_okTrace]
    rfl
  · intro src' hok' fuel page res tr h
    exact fetchAllAux_ok_of_src_ok src' 1000 hok' fuel page res tr h

/-- Claim C2 witness: a concrete source failing at page 2 after two full
pages, and a concrete all-success source. -/
theorem claim2_witness :
    (fetchAll (fun q => if q < 2 then Except.ok (List.range 1000) else Except.error "boom")
        1000 5
      = some (.error "boom", [(0, 999, some 1000), (1000, 1999, some 1000), (2000, 2999, none)]))
    ∧ (∀ res tr,
        fetchAllAux (ε := String) (fun _ => Except.ok ([] : List Nat)) 1000 1 0
          = some (res, tr) → ∃ l, res = .ok l) := by
  have h := claim2_fetchAll_error_propagation
    (fun q => if q < 2 then Except.ok (List.range 1000) else Except.error "boom") 2 "boom"
    (by
      intro q hq
      exact ⟨List.range 1000, by simp [hq], by simp⟩)
    (by norm_num)
  constructor
  · have h5 := h.1 5 (by norm_num)
    rw [h5]
    rfl
  · intro res tr hres
    exact h.2.2 (fun _ => Except.ok []) (fun q => ⟨[], rfl⟩) 1 0 res tr hres

/-! ### Tolerant date parser (model of `parseDate` in `MapSection`, `part_003`)

Dates are JavaScript `Date` values, identified with their epoch-millisecond
number; an Invalid Date (whose time value is NaN) is modelled as `none`.
The local-time `Date` constructor is modelled at UTC offset 0. -/

/-- Host-supplied date facilities the model cannot reproduce exactly:
`isoLong` models `new Date(s)` on strings matching the ISO prefix but longer
than a bare `YYYY-MM-DD` (e.g. carrying a time part); `generic` models
`Date.parse(s)`.  Both yield epoch milliseconds, or `none` for NaN. -/
structure Host where
  isoLong : String → Option Int
  generic : String → Option Int

/-- Days from 1970-01-01 to the proleptic-Gregorian civil date `y-m-d`
(Hinnant's days-from-civil algorithm, with floor division). -/
def daysFromCivil (y : Int) (m d : Nat) : Int :=
  let y' : Int := if m ≤ 2 then y - 1 else y
  let era : Int := Int.fdiv y' 400
  let yoe : Nat := (y' - era * 400).toNat
  let mp : Nat := if m > 2 then m - 3 else m + 9
  let doy : Nat := (153 * mp + 2) / 5 + (d - 1)
  let doe : Nat := yoe * 365 + yoe / 4 - yoe / 100 + doy
  era * 146097 + (doe : Int) - 719468

/-- Epoch milliseconds at midnight (UTC-modelled) of the civil date. -/
def msOfCivil (y : Int) (m d : Nat) : Int := daysFromCivil y m d * 86400000

/-- Model of the JavaScript `new Date(year, monthIndex, day)` constructor
(local time modelled as UTC): a year in 0..99 maps to 1900 + year, and
out-of-range month indices and days roll over exactly as ECMAScript
`MakeDay` does. -/
def jsMakeDate (y mIdx d : Int) : Int :=
  let yAdj : Int := if 0 ≤ y ∧ y ≤ 99 then y + 1900 else y
  let ym : Int := yAdj * 12 + mIdx
  let yy : Int := Int.fdiv ym 12
  let mm : Nat := (Int.emod ym 12).toNat + 1
  (daysFromCivil yy mm 1 + (d - 1)) * 86400000

def digitVal (c : Char) : Nat := c.toNat - 48

def digitsToNat (l : List Char) : Nat := l.foldl (fun n c => n * 10 + digitVal c) 0

/-- Test for the regular expression of the ISO branch, anchored at the
start: four digits, a dash, two digits, a dash, two digits. -/
def isoTest (s : String) : Bool :=
  match s.data with
  | a :: b :: c :: d :: '-' :: e :: f :: '-' :: g :: h :: _ =>
      a.isDigit && b.isDigit && c.isDigit && d.isDigit
        && e.isDigit && f.isDigit && g.isDigit && h.isDigit
  | _ => false

/-- Test for the regular expression of the slash branch, anchored at the
start: two digits, a slash, two digits, a slash, four digits. -/
def slashTest (s : String) : Bool :=
  match s.data with
  | a :: b :: '/' :: c :: d :: '/' :: e :: f :: g :: h :: _ =>
      a.isDigit && b.isDigit && c.isDigit && d.isDigit
        && e.isDigit && f.isDigit && g.isDigit && h.isDigit
  | _ => false

def isLeap (y : Int) : Bool := (y % 4 == 0 && y % 100 != 0) || y % 400 == 0

def daysInMonth (y : Int) : Nat → Nat
  | 1 => 31
  | 2 => if isLeap y then 29 else 28
  | 3 => 31
  | 4 => 30
  | 5 => 31
  | 6 => 30
  | 7 => 31
  | 8 => 31
  | 9 => 30
  | 10 => 31
  | 11 => 30
  | 12 => 31
  | _ => 0

/-- Model of `new Date(s)` on a string that is exactly a `YYYY-MM-DD` date:
a valid date yields its UTC-midnight millisecond value, an out-of-range
month or day yields an Invalid Date. -/
def isoExactMs (s : String) : Option Int :=
  match s.data with
  | [y1, y2, y3, y4, '-', m1, m2, '-', d1, d2] =>
      let y : Nat := digitsToNat [y1, y2, y3, y4]
      let m : Nat := digitsToNat [m1, m2]
      let d : Nat := digitsToNat [d1, d2]
      if 1 ≤ m ∧ m ≤ 12 ∧ 1 ≤ d ∧ d ≤ daysInMonth (y : Int) m then
        some (msOfCivil (y : Int) m d)
      else none
  | _ => none

/-- Model of `String.prototype.split` at the slash separator. -/
def splitSlash : List Char → List (List Char)
  | [] => [[]]
  | c :: rest =>
      let r := splitSlash rest
      if c = '/' then [] :: r
      else
        match r with
        | h :: t => (c :: h) :: t
        | [] => [[c]]

/-- Model of `parseInt(str, 10)` on the pieces of a matched `dd/mm/yyyy`
string: every such piece starts with a digit, so `parseInt` takes the
leading digit run (no whitespace or sign handling can trigger). -/
def parseIntLead (l : List Char) : Option Nat :=
  let ds := l.takeWhile Char.isDigit
  if ds.isEmpty then none else some (digitsToNat ds)

/-- The slash branch of `parseDate`: split on the slashes, `parseInt` the
first three pieces as day, month and year (day first, month second), and
build the date with the month-index constructor. -/
def dmySplitMs (s : String) : Option Int :=
  match splitSlash s.data with
  | p0 :: p1 :: p2 :: _ =>
      match parseIntLead p0, parseIntLead p1, parseIntLead p2 with
      | some dd, some mm, some yyyy =>
          some (jsMakeDate (yyyy : Int) ((mm : Int) - 1) (dd : Int))
      | _, _, _ => none
  | _ => none

/-- Model of `parseDate`: ISO prefix first (a bare 10-character date handled
concretely, a longer ISO-prefixed string by the host), then the `DD/MM/YYYY`
slash form, then generic `Date.parse`, and the epoch-zero sentinel when the
generic parse is NaN. -/
def parseDate (hp : Host) (s : String) : Option Int :=
  if isoTest s then
    if s.length = 10 then isoExactMs s else hp.isoLong s
  else if slashTest s then dmySplitMs s
  else
    match hp.generic s with
    | some t => some t
    | none => some 0

/-- A host whose unmodelled parsers always fail (sufficient for every string
whose parse is decided by the modelled branches). -/
def hostNone : Host := ⟨fun _ => none, fun _ => none⟩

/-- Claim C4 (amended): `parseDate` tries the ISO prefix first, then
`DD/MM/YYYY` with the day first and the month second, then the generic
parse, and returns the epoch-zero sentinel instead of failing when all
three fail; the sentinel compares as 1970-01-01 — earlier than every later
date but *later* than parseable pre-1970 dates. -/
theorem claim4_parseDate_policy (hp : Host) :
    (∀ s, isoTest s = true → s.length = 10 → parseDate hp s = isoExactMs s)
    ∧ (∀ s, isoTest s = true → s.length ≠ 10 → parseDate hp s = hp.isoLong s)
    ∧ (∀ s, isoTest s = false → slashTest s = true → parseDate hp s = dmySplitMs s)
    ∧ (∀ s t, isoTest s = false → slashTest s = false → hp.generic s = some t →
        parseDate hp s = some t)
    ∧ (∀ s, isoTest s = false → slashTest s = false → hp.generic s = none →
        parseDate hp s = some 0)
    ∧ parseDate hp "02/03/2020" = some (msOfCivil 2020 3 2)
    ∧ parseDate hp "02/03/2020" = parseDate hp "2020-03-02" := by
  refine ⟨?_, ?_, ?_, ?_, ?_, ?_, ?_⟩
  · intro s h1 h2; simp [parseDate, h1, h2]
  · intro s h1 h2; simp [parseDate, h1, h2]
  · intro s h1 h2; simp [parseDate, h1, h2]
  · intro s t h1 h2 h3; simp [parseDate, h1, h2, h3]
  · intro s h1 h2 h3; simp [parseDate, h1, h2, h3]
  · rfl
  · rfl

/-- Claim C4 witness: each dispatch branch exercised on a concrete string. -/
theorem claim4_witness :
    (isoTest "2020-01-02" = true ∧ "2020-01-02".length = 10 ∧
      parseDate hostNone "2020-01-02" = isoExactMs "2020-01-02")
    ∧ (isoTest "02/03/2020" = false ∧ slashTest "02/03/2020" = true ∧
      parseDate hostNone "02/03/2020" = dmySplitMs "02/03/2020")
    ∧ (isoTest "xyz" = false ∧ slashTest "xyz" = false ∧ hostNone.generic "xyz" = none ∧
      parseDate hostNone "xyz" = some 0) := by
  refine ⟨⟨by decide, by decide, ?_⟩, ⟨by decide, by decide, ?_⟩, ⟨by decide, by decide, rfl, ?_⟩⟩
  · exact (claim4_parseDate_policy hostNone).1 _ (by decide) (by decide)
  · exact (claim4_parseDate_policy hostNone).2.2.1 _ (by decide) (by decide)
  · exact (claim4_parseDate_policy hostNone).2.2.2.2.1 _ (by decide) (by decide) rfl

/-- Claim C4 counterexample: an unparseable date gets the epoch-zero
sentinel, but the parseable date `01/01/1900` is strictly earlier than the
sentinel, so an unparseable date does not compare as the earliest possible
date. -/
theorem claim4_cex :
    parseDate hostNone "not a date" = some 0
    ∧ parseDate hostNone "01/01/1900" = some (-2208988800000)
    ∧ (-2208988800000 : Int) < 0 := by
  exact ⟨rfl, rfl, by norm_num⟩

/-! ### Point Aggregator (model of the aggregation loop in `MapSection`,
`part_003` lines 138-159)

Rows carry the fields the loop reads; JavaScript numbers are rationals, a
missing/null/non-number field is `none`.  (The `id` field of the source row
type is never read by the modelled logic and is omitted.) -/

inductive CodeField
  | codigo
  | localizacao
deriving DecidableEq

structure AnyRow where
  codigo : Option String := none
  localizacao : Option String := none
  data : Option String := none
  coord_x_m : Option ℚ := none
  coord_y_m : Option ℚ := none
  sistema_aquifero : Option String := none
  lat : Option ℚ := none
  long : Option ℚ := none
deriving DecidableEq

structure PtStats where
  min : Option String
  max : Option String
  count : Nat
deriving DecidableEq

def codeOf : CodeField → AnyRow → Option String
  | .localizacao, r => r.localizacao
  | .codigo, r => r.codigo

/-- JavaScript `dateA < dateB` via `valueOf`: false whenever either side is
an Invalid Date (NaN comparisons are false). -/
def jsLtOpt : Option Int → Option Int → Bool
  | some a, some b => decide (a < b)
  | _, _ => false

/-- One iteration of the aggregation loop: skip rows with a falsy code or a
non-number coordinate; the first row per code becomes the representative;
statistics count every surviving row and track min/max by parsed-date
comparison, keeping the stored date string. -/
def aggStep (hp : Host) (cf : CodeField)
    (acc : List (String × AnyRow) × List (String × PtStats)) (r : AnyRow) :
    List (String × AnyRow) × List (String × PtStats) :=
  match codeOf cf r with
  | none => acc
  | some code =>
      if code = "" then acc
      else
        match r.coord_x_m, r.coord_y_m with
        | some _, some _ =>
            let byCode :=
              match getA acc.1 code with
              | some _ => acc.1
              | none => acc.1 ++ [(code, r)]
            let ds : Option String := r.data
            let st0 : PtStats :=
              match getA acc.2 code with
              | some st => st
              | none => { min := ds, max := ds, count := 0 }
            let st1 : PtStats := { st0 with count := st0.count + 1 }
            let st2 : PtStats :=
              match ds with
              | none => st1
              | some s =>
                  if s = "" then st1
                  else
                    let a := parseDate hp s
                    let newMin : Option String :=
                      match st1.min with
                      | none => some s
                      | some ms =>
                          if ms = "" then some s
                          else if jsLtOpt a (parseDate hp ms) then some s
                          else some ms
                    let newMax : Option String :=
                      match st1.max with
                      | none => some s
                      | some xs =>
                          if xs = "" then some s
                          else if jsLtOpt (parseDate hp xs) a then some s
                          else some xs
                    { st1 with min := newMin, max := newMax }
            (byCode, setA acc.2 code st2)
        | _, _ => acc

/-- The aggregation loop over a fetched row list: representatives in
first-seen order paired with their codes, and per-code statistics. -/
def aggregate (hp : Host) (cf : CodeField) (rows : List AnyRow) :
    List (String × AnyRow) × List (String × PtStats) :=
  rows.foldl (aggStep hp cf) ([], [])

/-- Claim C3 counterexample: on the exact input of the claim — rows carrying
only a code and a date, with no coordinate fields set — the aggregation loop
skips every row (the `typeof r.coord_x_m !== 'number'` guard), so the
representatives and the statistics are both empty, not the claimed
`A ↦ {min 2019-06-01, max 2020-01-01, count 2}`, `B ↦ {…, count 1}`. -/
theorem claim3_cex :
    aggregate hostNone .codigo
      [{ codigo := some "A", data := some "2020-01-01" },
       { codigo := some "A", data := some "2019-06-01" },
       { codigo := some "B", data := some "2021-03-01" }]
      = ([], []) := by
  rfl

/-- Claim C3 (amended): on the claim's rows completed with numeric
coordinate fields (which the loop requires), stats map A to
`{min 2019-06-01, max 2020-01-01, count 2}` and B to
`{min = max = 2021-03-01, count 1}`, and the representatives are exactly the
first-seen row of A followed by the row of B. -/
theorem claim3_aggregator_example (hp : Host) :
    aggregate hp .codigo
      [{ codigo := some "A", data := some "2020-01-01",
         coord_x_m := some 0, coord_y_m := some 0 },
       { codigo := some "A", data := some "2019-06-01",
         coord_x_m := some 0, coord_y_m := some 0 },
       { codigo := some "B", data := some "2021-03-01",
         coord_x_m := some 0, coord_y_m := some 0 }]
      = ([("A", { codigo := some "A", data := some "2020-01-01",
                  coord_x_m := some 0, coord_y_m := some 0 }),
          ("B", { codigo := some "B", data := some "2021-03-01",
                  coord_x_m := some 0, coord_y_m := some 0 })],
         [("A", { min := some "2019-06-01", max := some "2020-01-01", count := 2 }),
          ("B", { min := some "2021-03-01", max := some "2021-03-01", count := 1 })]) := by
  rfl

/-! ### Coordinate Normalizer (model of `utmToLatLng` in `part_001`) -/

/-- Model of `utmToLatLng`: a non-number input gives `null`; a pair with a
magnitude above 1000 is treated as projected meters and handed to the proj4
transform (a host function returning `[lon, lat]`, or `none` when it throws
or produces a non-finite component — rationals carry no NaN, so the
finiteness check of the source folds into `none`); otherwise a pair within
the degree bounds is returned unchanged as `(lat, lon) = (y, x)`; anything
else gives `null`. -/
def utmToLatLng (proj : ℚ → ℚ → Option (ℚ × ℚ)) (x y : Option ℚ) : Option (ℚ × ℚ) :=
  match x, y with
  | some x, some y =>
      if 1000 < |x| ∨ 1000 < |y| then
        match proj x y with
        | some (lon, lat) => some (lat, lon)
        | none => none
      else if |y| ≤ 90 ∧ |x| ≤ 180 then some (y, x)
      else none
  | _, _ => none

/-- Claim C8: for `|x| ≤ 1000`, `|y| ≤ 90`, `|x| ≤ 180` the normalizer
returns `(y, x)` unchanged, and re-normalizing such an in-bounds degree
result is a no-op. -/
theorem claim8_normalize_inbounds (proj : ℚ → ℚ → Option (ℚ × ℚ)) (x y : ℚ)
    (hx : |x| ≤ 1000) (hy : |y| ≤ 90) (hx' : |x| ≤ 180) :
    utmToLatLng proj (some x) (some y) = some (y, x)
    ∧ (∀ lat lon, utmToLatLng proj (some x) (some y) = some (lat, lon) →
        utmToLatLng proj (some lon) (some lat) = some (lat, lon)) := by
  have hbig : ¬ (1000 < |x| ∨ 1000 < |y|) := by
    push_neg
    exact ⟨hx, by linarith⟩
  have h1 : utmToLatLng proj (some x) (some y) = some (y, x) := by
    simp only [utmToLatLng, if_neg hbig]
    rw [if_pos ⟨hy, hx'⟩]
  refine ⟨h1, ?_⟩
  intro lat lon h
  rw [h1] at h
  have h2 : y = lat ∧ x = lon := by simpa using h
  obtain ⟨h2, h3⟩ := h2
  subst h2; subst h3
  exact h1

/-- Claim C8 witness: a concrete Lisbon-area degree pair. -/
theorem claim8_witness :
    |(-9 : ℚ)| ≤ 1000 ∧ |(38 : ℚ)| ≤ 90 ∧ |(-9 : ℚ)| ≤ 180 ∧
    utmToLatLng (fun _ _ => none) (some (-9)) (some 38) = some (38, -9) := by
  have hx : |(-9 : ℚ)| ≤ 1000 := by rw [abs_le]; constructor <;> norm_num
  have hy : |(38 : ℚ)| ≤ 90 := by rw [abs_le]; constructor <;> norm_num
  have hx' : |(-9 : ℚ)| ≤ 180 := by rw [abs_le]; constructor <;> norm_num
  exact ⟨hx, hy, hx',
    (claim8_normalize_inbounds (fun _ _ => none) (-9) 38 hx hy hx').1⟩

/-! ### Query construction (model of `fetchVariableData`, `fetchHistory` in
`part_001`).  The supabase query builder is modelled as a record of the
query's observable shape; `supabase` itself is assumed configured (the
source short-circuits to an empty result when it is not). -/

inductive VarKey
  | profundidade
  | nitrato
  | condutividade
  | caudal
deriving DecidableEq

structure VarCfg where
  table : String
  codeField : CodeField
deriving DecidableEq

def VARIABLE_CFG : VarKey → VarCfg
  | .profundidade => ⟨"piezo_tejo_loc_zvt", .codigo⟩
  | .nitrato => ⟨"nitrato_tejo_loc_zvt", .codigo⟩
  | .condutividade => ⟨"condut_tejo_loc_zvt", .codigo⟩
  | .caudal => ⟨"caudal_tejo_loc", .localizacao⟩

def fieldName : CodeField → String
  | .codigo => "codigo"
  | .localizacao => "localizacao"

structure Query where
  table : String
  select : String
  eqFilters : List (String × String)
  orderAsc : Option String
deriving DecidableEq

/-- Model of the query built by `fetchVariableData`: per-code-field column
projection, and the `sistema_aquifero` equality filter added only when the
region argument is truthy, differs from the `todos` sentinel and the
variable's code field is not `localizacao`. -/
def fetchVariableQuery (vk : VarKey) (sis : String) : Query :=
  let cfg := VARIABLE_CFG vk
  { table := cfg.table,
    select := match cfg.codeField with
      | .localizacao => "id, data, coord_x_m, coord_y_m, localizacao"
      | .codigo => "id, data, coord_x_m, coord_y_m, codigo, sistema_aquifero",
    eqFilters :=
      if sis ≠ "" ∧ sis ≠ "todos" ∧ cfg.codeField ≠ CodeField.localizacao then
        [("sistema_aquifero", sis)]
      else [],
    orderAsc := none }

/-- Model of the query built by `fetchHistory`: all columns, equality filter
on the code field, ascending order by date, and the same conditional
`sistema_aquifero` filter. -/
def fetchHistoryQuery (vk : VarKey) (code sis : String) : Query :=
  let cfg := VARIABLE_CFG vk
  { table := cfg.table,
    select := "*",
    eqFilters := (fieldName cfg.codeField, code) ::
      (if sis ≠ "" ∧ sis ≠ "todos" ∧ cfg.codeField ≠ CodeField.localizacao then
        [("sistema_aquifero", sis)]
      else []),
    orderAsc := some "data" }

/-- `fetchVariableData` row retrieval: the pagination loop applied to a
backend executing the built query. -/
def fetchVariableRows {ε α : Type} (backend : Query → Nat → Except ε (List α))
    (vk : VarKey) (sis : String) (fuel : Nat) :
    Option (Except ε (List α) × List (Nat × Nat × Option Nat)) :=
  fetchAll (fun page => backend (fetchVariableQuery vk sis) page) 1000 fuel

/-- `fetchHistory` row retrieval. -/
def fetchHistoryRows {ε α : Type} (backend : Query → Nat → Except ε (List α))
    (vk : VarKey) (code sis : String) (fuel : Nat) :
    Option (Except ε (List α) × List (Nat × Nat × Option Nat)) :=
  fetchAll (fun page => backend (fetchHistoryQuery vk code sis) page) 1000 fuel

/-- Claim C10: for the `caudal` variable (code field `localizacao`) the
region argument is never applied as a query filter: `fetchVariableData` and
`fetchHistory` build identical queries for any two region values, and
against any backend they retrieve identical row sets — the result depends
only on the variable and the code. -/
theorem claim10_caudal_region_independent {ε α : Type}
    (backend : Query → Nat → Except ε (List α)) (code s₁ s₂ : String) (fuel : Nat) :
    fetchVariableQuery .caudal s₁ = fetchVariableQuery .caudal s₂
    ∧ fetchHistoryQuery .caudal code s₁ = fetchHistoryQuery .caudal code s₂
    ∧ fetchVariableRows backend .caudal s₁ fuel = fetchVariableRows backend .caudal s₂ fuel
    ∧ fetchHistoryRows backend .caudal code s₁ fuel
        = fetchHistoryRows backend .caudal code s₂ fuel := by
  have hq : fetchVariableQuery .caudal s₁ = fetchVariableQuery .caudal s₂ := by
    simp [fetchVariableQuery, VARIABLE_CFG]
  have hh : fetchHistoryQuery .caudal code s₁ = fetchHistoryQuery .caudal code s₂ := by
    simp [fetchHistoryQuery, VARIABLE_CFG]
  refine ⟨hq, hh, ?_, ?_⟩
  · rw [fetchVariableRows, fetchVariableRows]
    simp only [hq]
  · rw [fetchHistoryRows, fetchHistoryRows]
    simp only [hh]

/-! ### Query orchestration (model of the `run` effect in `MapSection`,
`part_003` lines 96-185)

The cache of the map section stores three payload shapes under disjoint key
namespaces; the typed payload models the `Array.isArray` shape checks of the
source (a payload of the wrong shape at a key fails the check and falls
through to the fetch path).  `rowsSet`/`statsSet` record the values passed
to `setRows`/`setStatsByCode` (`none` when the setter was not invoked), and
`fetches` counts backend invocations. -/

inductive CachePayload
  | points (rows : List AnyRow) (stats : List (String × PtStats))
  | sys (vals : List String)
  | meteoPts (rows : List AnyRow)
deriving DecidableEq

def day24 : Int := 24 * 60 * 60 * 1000

def day7 : Int := 7 * 24 * 60 * 60 * 1000

def varName : VarKey → String
  | .profundidade => "profundidade"
  | .nitrato => "nitrato"
  | .condutividade => "condutividade"
  | .caudal => "caudal"

def varCacheKey (vk : VarKey) (sis : String) : String :=
  "var_points_v1:" ++ varName vk ++ ":" ++ sis

structure RunOut where
  rowsSet : Option (List AnyRow)
  statsSet : Option (List (String × PtStats))
  st : CacheState CachePayload
  fetches : Nat

/-- Reading a key right after writing it returns the written payload while
the elapsed time is within the budget (the memory tier hits). -/
theorem cacheRead_write_fst {V : Type} (st : CacheState V) (k : String) (v : V)
    (t now m : Int) (ok : Bool) (h : now - t ≤ m) :
    (cacheRead k m now (cacheWrite k v t ok st)).1 = some v := by
  have hmem : getA (setA st.mem k (t, v)) k = some (t, v) := getA_setA_self _ _ _
  simp [cacheRead, cacheWrite, hmem, h]

/-- Model of the non-meteo points branch of `run`: read the
`var_points_v1:<variable>:<region>` key with the 24h budget; a cached value
whose `rows` is an array is served directly (its emptiness is NOT checked);
otherwise fetch, then — only if the cancellation flag is still unset —
aggregate, publish and rewrite the cache.  `cancel` is the flag value
observed at the `await fetchVariableData` boundary. -/
def runVarPoints (hp : Host) (fetched : List AnyRow) (cancel : Bool)
    (vk : VarKey) (sis : String) (now : Int) (storeOk : Bool)
    (st : CacheState CachePayload) : RunOut :=
  let key := varCacheKey vk sis
  match cacheRead key day24 now st with
  | (some (.points rows stats), st') =>
      { rowsSet := some rows, statsSet := some stats, st := st', fetches := 0 }
  | (_, st') =>
      if cancel then { rowsSet := none, statsSet := none, st := st', fetches := 1 }
      else
        let agg := aggregate hp (VARIABLE_CFG vk).codeField fetched
        let rows := agg.1.map (·.2)
        { rowsSet := some rows, statsSet := some agg.2,
          st := cacheWrite key (.points rows agg.2) now storeOk st', fetches := 1 }

structure MeteoRaw where
  lat : Option ℚ
  long : Option ℚ
  time : Option String
deriving DecidableEq

/-- Model of the meteo dedup loop: skip rows whose coordinates are not
finite numbers, first row per `lat,long` key wins.  The JS key is the
string rendering of the pair; number-to-string is injective, so the pair
itself serves as the key, and the stored `codigo` label uses Lean's
rational rendering (no claim inspects it). -/
def meteoDedup (arr : List MeteoRaw) : List AnyRow :=
  (arr.foldl (fun (acc : List ((ℚ × ℚ) × AnyRow)) r =>
      match r.lat, r.long with
      | some la, some lo =>
          if acc.any (fun p => decide (p.1 = (la, lo))) then acc
          else acc ++ [((la, lo),
            { codigo := some (toString la ++ "," ++ toString lo),
              lat := some la, long := some lo, data := r.time })]
      | _, _ => acc) []).map (·.2)

/-- Model of the meteo branch of `run`: a cached non-empty array is served;
otherwise the fetched rows are deduplicated, published and cached.  The
source has no cancellation check between the `await fetchAll` and
`setRows(arrPts)` / `cacheWrite`, so the `cancel` flag — though observed at
that boundary — is never consulted; `statsSet := some []` records the
unconditional `setStatsByCode({})` that closes the branch. -/
def runMeteo (fetched : List MeteoRaw) (cancel : Bool) (now : Int)
    (storeOk : Bool) (st : CacheState CachePayload) : RunOut :=
  let goFetch : CacheState CachePayload → RunOut := fun st' =>
    let pts := meteoDedup fetched
    { rowsSet := some pts, statsSet := some [],
      st := cacheWrite "meteo_points_v1" (.meteoPts pts) now storeOk st',
      fetches := 1 }
  match cacheRead "meteo_points_v1" day24 now st with
  | (some (.meteoPts rows), st') =>
      if rows.length > 0 then
        { rowsSet := some rows, statsSet := some [], st := st', fetches := 0 }
      else goFetch st'
  | (_, st') => goFetch st'

/-- First-occurrence deduplication (model of `Array.from(new Set(...))`). -/
def dedupeKeepFirst (l : List String) : List String :=
  l.foldl (fun acc s => if s ∈ acc then acc else acc ++ [s]) []

def insertSorted (x : String) : List String → List String
  | [] => [x]
  | y :: r => if x ≤ y then x :: y :: r else y :: insertSorted x r

/-- Sorting (model of `.sort((a,b) => a.localeCompare(b, 'pt'))`; the
pt-locale collation is modelled by code-point order — no claim depends on
the collation). -/
def sortStr (l : List String) : List String := l.foldr insertSorted []

def cleanSistemas (distinct : List String) : List String :=
  sortStr (dedupeKeepFirst (distinct.map (fun s => s.trim)))

/-- Model of the distinct-region branch of `run`: a cached non-empty list
under `sistemas_v1:<variable>` (7-day budget) is served; otherwise the
fetched distinct values are trimmed, deduplicated, sorted, published and
cached.  As in the meteo branch, the source has no cancellation check after
the `await fetchDistinctSistemas`, so `cancel` is never consulted.  Returns
the value passed to `setSistemaOptions`, the cache state, and the number of
backend invocations. -/
def runSistemas (distinct : List String) (cancel : Bool) (vk : VarKey)
    (now : Int) (storeOk : Bool) (st : CacheState CachePayload) :
    Option (List String) × CacheState CachePayload × Nat :=
  let key := "sistemas_v1:" ++ varName vk
  let goFetch : CacheState CachePayload →
      Option (List String) × CacheState CachePayload × Nat := fun st' =>
    let vals := cleanSistemas distinct
    (some vals, cacheWrite key (.sys vals) now storeOk st', 1)
  match cacheRead key day7 now st with
  | (some (.sys vals), st') =>
      if vals.length > 0 then (some vals, st', 0) else goFetch st'
  | (_, st') => goFetch st'

/-- After the points branch writes its payload, a later read of the same key
within the window serves it without fetching. -/
theorem runVarPoints_fetches_after_write (hp₂ : Host) (fetched₂ : List AnyRow)
    (cancel₂ : Bool) (vk : VarKey) (sis : String) (now now₂ : Int)
    (storeOk storeOk₂ : Bool) (st : CacheState CachePayload)
    (rows : List AnyRow) (stats : List (String × PtStats))
    (hwin : now₂ - now ≤ day24) :
    (runVarPoints hp₂ fetched₂ cancel₂ vk sis now₂ storeOk₂
      (cacheWrite (varCacheKey vk sis) (.points rows stats) now storeOk st)).fetches
      = 0 := by
  have hhit := cacheRead_write_fst st (varCacheKey vk sis) (.points rows stats)
    now now₂ day24 storeOk hwin
  rcases hread₂ : cacheRead (varCacheKey vk sis) day24 now₂
      (cacheWrite (varCacheKey vk sis) (.points rows stats) now storeOk st)
    with ⟨res₂, st₂⟩
  have hfst : (cacheRead (varCacheKey vk sis) day24 now₂
      (cacheWrite (varCacheKey vk sis) (.points rows stats) now storeOk st)).1 = res₂ := by
    rw [hread₂]
  have h2 : res₂ = some (.points rows stats) := by rw [← hfst]; exact hhit
  subst h2
  simp [runVarPoints, hread₂]

/-- Claim C7 (amended): the points branch performs no backend fetch exactly
when the cache read under `var_points_v1:<variable>:<region>` returns a
valid entry of the points shape — its rows field an array, emptiness NOT
required — in which case that entry's rows and stats are served directly;
consequently, after a first uncancelled load that missed the cache, a second
load of the same (variable, region) within the 24-hour window performs zero
point-data fetches. -/
theorem claim7_cached_points_serving (hp : Host) (fetched : List AnyRow)
    (cancel : Bool) (vk : VarKey) (sis : String) (now : Int)
    (storeOk : Bool) (st : CacheState CachePayload) :
    ((runVarPoints hp fetched cancel vk sis now storeOk st).fetches = 0
      ↔ ∃ rows stats, (cacheRead (varCacheKey vk sis) day24 now st).1
          = some (.points rows stats))
    ∧ (∀ rows stats, (cacheRead (varCacheKey vk sis) day24 now st).1
          = some (.points rows stats) →
        (runVarPoints hp fetched cancel vk sis now storeOk st).rowsSet = some rows
        ∧ (runVarPoints hp fetched cancel vk sis now storeOk st).statsSet = some stats)
    ∧ (∀ (hp₂ : Host) (fetched₂ : List AnyRow) (cancel₂ : Bool) (storeOk₂ : Bool)
        (now₂ : Int),
        (∀ rows stats, (cacheRead (varCacheKey vk sis) day24 now st).1
            ≠ some (.points rows stats)) →
        now₂ - now ≤ day24 →
        (runVarPoints hp₂ fetched₂ cancel₂ vk sis now₂ storeOk₂
          (runVarPoints hp fetched false vk sis now storeOk st).st).fetches = 0) := by
  rcases hread : cacheRead (varCacheKey vk sis) day24 now st with ⟨res, st'⟩
  refine ⟨?_, ?_, ?_⟩
  · cases res with
    | none =>
        simp only [runVarPoints, hread]
        constructor
        · intro hf
          by_cases hc : cancel <;> simp [hc] at hf
        · rintro ⟨rows, stats, hcontra⟩
          exact absurd hcontra (by simp)
    | some pl =>
        cases pl with
        | points rows stats =>
            constructor
            · intro _
              exact ⟨rows, stats, rfl⟩
            · intro _
              simp [runVarPoints, hread]
        | sys vals =>
            simp only [runVarPoints, hread]
            constructor
            · intro hf
              by_cases hc : cancel <;> simp [hc] at hf
            · rintro ⟨rows, stats, hcontra⟩
              exact absurd hcontra (by simp)
        | meteoPts mrows =>
            simp only [runVarPoints, hread]
            constructor
            · intro hf
              by_cases hc : cancel <;> simp [hc] at hf
            · rintro ⟨rows, stats, hcontra⟩
              exact absurd hcontra (by simp)
  · intro rows stats hres
    have hres' : res = some (CachePayload.points rows stats) := hres
    subst hres'
    simp [runVarPoints, hread]
  · intro hp₂ fetched₂ cancel₂ storeOk₂ now₂ hmiss hwin
    have hres : ∀ rows stats, res ≠ some (CachePayload.points rows stats) := by
      intro rows stats hcontra
      exact hmiss rows stats hcontra
    have hr1 : (runVarPoints hp fetched false vk sis now storeOk st).st
        = cacheWrite (varCacheKey vk sis)
            (.points ((aggregate hp (VARIABLE_CFG vk).codeField fetched).1.map (·.2))
              (aggregate hp (VARIABLE_CFG vk).codeField fetched).2)
            now storeOk st' := by
      cases res with
      | none => simp [runVarPoints, hread]
      | some pl =>
          cases pl with
          | points rows stats => exact absurd rfl (hres rows stats)
          | sys vals => simp [runVarPoints, hread]
          | meteoPts mrows => simp [runVarPoints, hread]
    rw [hr1]
    exact runVarPoints_fetches_after_write hp₂ fetched₂ cancel₂ vk sis now now₂
      storeOk storeOk₂ st' _ _ hwin

/-- Claim C7 witness: a cached points entry is served without fetching, and
a cold-cache load followed by a load 1ms later fetches only once. -/
theorem claim7_witness :
    ((runVarPoints hostNone [] true .profundidade "todos" 5 true
        (cacheWrite (varCacheKey .profundidade "todos")
          (CachePayload.points [{ codigo := some "A" }] []) 0 true ⟨[], []⟩)).fetches = 0)
    ∧ ((runVarPoints hostNone [] true .profundidade "todos" 5 true
        (cacheWrite (varCacheKey .profundidade "todos")
          (CachePayload.points [{ codigo := some "A" }] []) 0 true ⟨[], []⟩)).rowsSet
        = some [{ codigo := some "A" }])
    ∧ ((runVarPoints hostNone [] false .profundidade "todos" 1 true
        (runVarPoints hostNone [] false .profundidade "todos" 0 true
          ⟨[], []⟩).st).fetches = 0) := by
  have h := claim7_cached_points_serving hostNone [] true .profundidade "todos" 5 true
    (cacheWrite (varCacheKey .profundidade "todos")
      (CachePayload.points [{ codigo := some "A" }] []) 0 true ⟨[], []⟩)
  have h2 := claim7_cached_points_serving hostNone [] false .profundidade "todos" 0 true
    (⟨[], []⟩ : CacheState CachePayload)
  refine ⟨h.1.mpr ⟨[{ codigo := some "A" }], [], by decide⟩,
    (h.2.1 [{ codigo := some "A" }] [] (by decide)).1,
    h2.2.2 hostNone [] false true 1 ?_ (by decide)⟩
  intro rows stats hc
  rw [show (cacheRead (varCacheKey .profundidade "todos") day24 0
      (⟨[], []⟩ : CacheState CachePayload)).1 = none from rfl] at hc
  exact Option.noConfusion hc

/-- Claim C7 counterexample: a valid cached points entry whose rows array is
EMPTY is still served with zero fetches — the code checks only
`Array.isArray(cached.rows)`, not non-emptiness, so "no fetch exactly when
the read returns a valid non-empty entry" fails in the non-empty direction. -/
theorem claim7_cex :
    ((runVarPoints hostNone [] false .profundidade "todos" 5 true
        (cacheWrite (varCacheKey .profundidade "todos") (CachePayload.points [] []) 0 true
          ⟨[], []⟩)).fetches = 0)
    ∧ ((cacheRead (varCacheKey .profundidade "todos") day24 5
        (cacheWrite (varCacheKey .profundidade "todos") (CachePayload.points [] []) 0 true
          ⟨[], []⟩)).1 = some (CachePayload.points [] [])) := by
  constructor <;> decide

/-- Claim C9 (amended): only the point-data path discards late results when
the cancellation flag is set at its fetch boundary — it publishes neither
rows nor stats and leaves the cache exactly as the read left it; the
meteorological-points path and the distinct-region-list path apply their
fetched results even with the flag set (the source re-checks the flag only
on the `fetchVariableData` path and around the error/loading indicators). -/
theorem claim9_cancellation_coverage (hp : Host) (fetched : List AnyRow)
    (mfetched : List MeteoRaw) (distinct : List String) (vk : VarKey)
    (sis : String) (now : Int) (storeOk : Bool) (st : CacheState CachePayload)
    (hmiss : ∀ rows stats, (cacheRead (varCacheKey vk sis) day24 now st).1
        ≠ some (.points rows stats)) :
    ((runVarPoints hp fetched true vk sis now storeOk st).rowsSet = none
      ∧ (runVarPoints hp fetched true vk sis now storeOk st).statsSet = none
      ∧ (runVarPoints hp fetched true vk sis now storeOk st).st
          = (cacheRead (varCacheKey vk sis) day24 now st).2)
    ∧ (runMeteo mfetched true now storeOk st).rowsSet.isSome = true
    ∧ (runSistemas distinct true vk now storeOk st).1.isSome = true := by
  refine ⟨?_, ?_, ?_⟩
  · rcases hread : cacheRead (varCacheKey vk sis) day24 now st with ⟨res, st'⟩
    have hres : ∀ rows stats, res ≠ some (CachePayload.points rows stats) := by
      intro rows stats hcontra
      exact hmiss rows stats (by rw [hread]; exact hcontra)
    cases res with
    | none => simp [runVarPoints, hread]
    | some pl =>
        cases pl with
        | points rows stats => exact absurd rfl (hres rows stats)
        | sys vals => simp [runVarPoints, hread]
        | meteoPts mrows => simp [runVarPoints, hread]
  · rcases hread : cacheRead "meteo_points_v1" day24 now st with ⟨res, st'⟩
    cases res with
    | none => simp [runMeteo, hread]
    | some pl =>
        cases pl with
        | points rows stats => simp [runMeteo, hread]
        | sys vals => simp [runMeteo, hread]
        | meteoPts mrows =>
            by_cases hlen : mrows.length > 0 <;> simp [runMeteo, hread, hlen]
  · rcases hread : cacheRead ("sistemas_v1:" ++ varName vk) day7 now st with ⟨res, st'⟩
    cases res with
    | none => simp [runSistemas, hread]
    | some pl =>
        cases pl with
        | points rows stats => simp [runSistemas, hread]
        | sys vals =>
            by_cases hlen : vals.length > 0 <;> simp [runSistemas, hread, hlen]
        | meteoPts mrows => simp [runSistemas, hread]

/-- Claim C9 witness: on a cold cache, the cancelled point load publishes
nothing while the cancelled meteo and region-list loads still publish. -/
theorem claim9_witness :
    (runVarPoints hostNone [] true .profundidade "todos" 0 true ⟨[], []⟩).rowsSet = none
    ∧ (runVarPoints hostNone [] true .profundidade "todos" 0 true ⟨[], []⟩).statsSet = none
    ∧ (runMeteo [] true 0 true ⟨[], []⟩).rowsSet.isSome = true
    ∧ (runSistemas [] true .profundidade 0 true ⟨[], []⟩).1.isSome = true := by
  have h := claim9_cancellation_coverage hostNone [] [] [] .profundidade "todos" 0 true
    (⟨[], []⟩ : CacheState CachePayload)
    (by
      intro rows stats hc
      rw [show (cacheRead (varCacheKey .profundidade "todos") day24 0
          (⟨[], []⟩ : CacheState CachePayload)).1 = none from rfl] at hc
      exact Option.noConfusion hc)
  exact ⟨h.1.1, h.1.2.1, h.2.1, h.2.2⟩

/-- Claim C9 counterexample: with the cancellation flag set during the
fetch, the meteo path still publishes the fetched deduplicated rows and
writes the cache (fetches = 1, rows applied), and the region-list path
still publishes its options — late results are applied, not discarded. -/
theorem claim9_cex :
    ((runMeteo [⟨some 1, some 2, some "t"⟩] true 0 true ⟨[], []⟩).fetches = 1
      ∧ (runMeteo [⟨some 1, some 2, some "t"⟩] true 0 true ⟨[], []⟩).rowsSet.isSome = true)
    ∧ ((runSistemas ["alpha"] true .profundidade 0 true ⟨[], []⟩).2.2 = 1
      ∧ (runSistemas ["alpha"] true .profundidade 0 true ⟨[], []⟩).1.isSome = true) := by
  refine ⟨⟨rfl, rfl⟩, ⟨rfl, rfl⟩⟩

end Eda
